import Mathlib

/-!
The cf-annotations-plugin: argument parsing and command runs

A shallow embedding of `scripts/annotations/command.go` and of the dispatcher
`AnnotationsPlugin.Run` of `main.go`.

Conventions of the embedding

* A Go `string` is a Lean `String`.  The program only compares strings, looks
  for the one-byte separators `=` and `-`, slices at the position of `=` and
  concatenates, so the character view and Go's byte view agree on every UTF-8
  argument.
* A Go function returning `(..., error)` returns an `Outcome`: `ok` for a nil
  error, `error msg` for a non-nil error carrying the text `msg`, and `panic`
  for a run-time panic (an index out of range).
* A Go `map[string]types.NullString` is an association list with at most one
  entry per key; `len` is its length.
* The functions of Go's standard library and of the CLI's JSON layer which the
  program calls but does not define (`strings.ToLower`, `strings.TrimSpace`, the
  JSON encoding of a string, `json.Unmarshal`) are the fields of `GoLib`;
  every theorem holds for each choice of them.
* The plugin connection is a record of response functions.  Each response may
  depend on the calls made earlier in the run; every call is appended to an
  explicit trace.
* Writes to standard output and standard error are not part of the trace of
  connection calls; the text a command prints on success is its `ok` value.
-/

namespace Annotations

/-! ## Results, strings and maps -/

/-- Result of a Go call: normal return, returned error, or run-time panic. -/
inductive Outcome (α : Type) where
  | ok (val : α)
  | error (msg : String)
  | panic
  deriving DecidableEq, Repr

/-- Go's `strings.Index(s, sep)` for a one-character separator: the position of
its first occurrence, or `-1`.  Positions count characters; the program uses
the position only to compare it with `-1` and `0` and to slice the same string
just before and just after the separator. -/
def Index (s : String) (sep : Char) : Int :=
  if sep ∈ s.data then (s.data.indexOf sep : Int) else -1

/-- Go's `s[:idx]`. -/
def sliceTo (s : String) (idx : Nat) : String := String.mk (s.data.take idx)

/-- Go's `s[idx:]`. -/
def sliceFrom (s : String) (idx : Nat) : String := String.mk (s.data.drop idx)

/-- Go's `strings.Join(lines, sep)`. -/
def Join : List String → String → String
  | [], _ => ""
  | [line], _ => line
  | line :: next :: rest, sep => line ++ sep ++ Join (next :: rest) sep

/-- Byte-wise `<` on strings, the order in which Go's JSON encoder sorts the
keys of a map. -/
def charsLess : List Char → List Char → Bool
  | _, [] => false
  | [], _ :: _ => true
  | a :: as, b :: bs => a.toNat < b.toNat || (a.toNat = b.toNat && charsLess as bs)

/-- The `types.NullString` of the CLI: a string value and a flag telling
whether it is set. -/
structure NullString where
  Value : String
  IsSet : Bool
  deriving DecidableEq, Repr

/-- The CLI's `types.NewNullString(optionalValue ...string)`, called by the
program with no argument (`none`) or with one (`some v`). -/
def NewNullString : Option String → NullString
  | none => { Value := "", IsSet := false }
  | some v => { Value := v, IsSet := true }

/-- A Go `map[string]types.NullString`. -/
abbrev StringMap := List (String × NullString)

/-- The assignment `m[k] = v`. -/
def mapSet (m : StringMap) (k : String) (v : NullString) : StringMap :=
  (k, v) :: m.filter (fun e => e.1 ≠ k)

/-- The lookup `m[k]` (with the comma-ok flag as the option). -/
def mapGet (m : StringMap) (k : String) : Option NullString :=
  (m.find? (fun e => e.1 = k)).map Prod.snd

/-- The struct `metadataFields`. -/
structure metadataFields where
  Labels : StringMap
  Annotations : StringMap
  deriving DecidableEq, Repr

/-- The struct `metadata`. -/
structure metadata where
  Metadata : metadataFields
  deriving DecidableEq, Repr

/-- The constructor `newMetadata`: both maps empty. -/
def newMetadata : metadata :=
  { Metadata := { Labels := [], Annotations := [] } }

/-- The library functions the program calls without defining them. -/
structure GoLib where
  /-- The function `strings.ToLower`. -/
  ToLower : String → String
  /-- The function `strings.TrimSpace`. -/
  TrimSpace : String → String
  /-- The JSON encoding of a Go string (quotes and escapes included). -/
  jsonString : String → String
  /-- The decoder `json.Unmarshal` into a fresh `metadata`. -/
  unmarshalMetadata : String → Except String metadata
  /-- The decoder `json.Unmarshal` into the buildpack listing, read off as the
  `Guid` of each entry of `resources` (a decoding error is ignored by the
  program, which then sees whatever was decoded). -/
  unmarshalBuildpacks : String → List String

/-! ## `processArgs` -/

/-- The cases of the `switch` of `processArgs` on the lower-cased type. -/
def isResourceType (lowered : String) : Bool :=
  lowered = "app" || lowered = "org" || lowered = "space" || lowered = "stack"
    || lowered = "buildpack"

/-- A key check: the callback of `processArgs`, which may update the metadata
and may return an error. -/
abbrev KeyCheck := String → metadata → Except String metadata

/-- The loop `for i, s := range (args)` of `processArgs`.  `todo` counts the
iterations still to run (the length of the slice is read once, before the
loop), `i` is the index, `args` the slice, whose elements are read when their
iteration starts, so that the write `args[i+1] = ""` is seen by the next
iteration. -/
def rangeLoop (lib : GoLib) (resourceType : String) (keyCheck : KeyCheck) :
    Nat → Nat → List String → String → metadata → Outcome (String × metadata)
  | 0, _, _, stackOption, m => .ok (stackOption, m)
  | todo + 1, i, args, stackOption, m =>
    match args.get? i with
    | none => .panic
    | some s =>
      if s = "-s" ∨ s = "--stack" then
        if lib.ToLower resourceType ≠ "buildpack" then
          .error ("--stack not allowed with type " ++ lib.ToLower resourceType)
        else if i = args.length - 1 then
          .error ("No stack for option '" ++ s ++ "'")
        else
          match args.get? (i + 1) with
          | none => .panic
          | some next =>
            rangeLoop lib resourceType keyCheck todo (i + 1) (args.set (i + 1) "") next m
      else
        match s.data with
        | [] => .panic
        | c :: _ =>
          if c = '-' then
            .error ("invalid option of '" ++ s ++ "'")
          else if s ≠ "" then
            match keyCheck s m with
            | .error err => .error err
            | .ok m' => rangeLoop lib resourceType keyCheck todo (i + 1) args stackOption m'
          else
            rangeLoop lib resourceType keyCheck todo (i + 1) args stackOption m

/-- What `processArgs` returns beside the error. -/
structure Parsed where
  resourceType : String
  resourceName : String
  stackOption : String
  m : metadata
  deriving DecidableEq, Repr

/-- The function `processArgs`. -/
def processArgs (lib : GoLib) (args : List String) (keyCheck : KeyCheck) : Outcome Parsed :=
  match args with
  | [] => .panic
  | resourceType :: args =>
    if isResourceType (lib.ToLower resourceType) = false then
      .error ("not a valid resource type: " ++ resourceType)
    else
      match args with
      | [] => .panic
      | resourceName :: args =>
        match rangeLoop lib resourceType keyCheck args.length 0 args "" newMetadata with
        | .ok (stackOption, m) => .ok ⟨resourceType, resourceName, stackOption, m⟩
        | .error err => .error err
        | .panic => .panic

/-- The key check of `SetAnnotations`. -/
def setKeyCheck : KeyCheck := fun s m =>
  let idx := Index s '='
  if idx = -1 then
    .error ("no value part given for annotation '" ++ s ++ "'")
  else if idx = 0 then
    .error ("no key part given for annotation '" ++ s ++ "'")
  else
    .ok { m with Metadata := { m.Metadata with
      Annotations := mapSet m.Metadata.Annotations (sliceTo s idx.toNat)
        (NewNullString (some (sliceFrom s (idx.toNat + 1)))) } }

/-- The key check of `UnsetAnnotations`. -/
def unsetKeyCheck : KeyCheck := fun s m =>
  let idx := Index s '='
  if idx ≠ -1 then
    .error ("annotation key '" ++ s ++ "' cannot contain an '='")
  else
    .ok { m with Metadata := { m.Metadata with
      Annotations := mapSet m.Metadata.Annotations s (NewNullString none) } }

/-- The key check of `ViewAnnotations`. -/
def viewKeyCheck : KeyCheck := fun s m =>
  .ok { m with Metadata := { m.Metadata with
    Annotations := mapSet m.Metadata.Annotations s (NewNullString none) } }

/-! ## JSON payload -/

/-- The method `MarshalJSON` of the CLI's `types.NullString`: the JSON string
of the value when set, the JSON `null` otherwise. -/
def NullString.MarshalJSON (lib : GoLib) (n : NullString) : String :=
  if n.IsSet then lib.jsonString n.Value else "null"

/-- The encoding `json.Marshal` of a `map[string]types.NullString`: an object
whose members come in increasing key order. -/
def marshalMap (lib : GoLib) (m : StringMap) : String :=
  "\x7b" ++ Join
    ((m.insertionSort (fun a b => charsLess b.1.data a.1.data = false)).map
      (fun e => lib.jsonString e.1 ++ ":" ++ e.2.MarshalJSON lib)) "," ++ "\x7d"

/-- The encoding `json.Marshal(metadataPtr)`, following the field tags
`metadata`, `labels` and `annotations` of the two structs.  It returns no error
for this type. -/
def jsonMarshal (lib : GoLib) (m : metadata) : String :=
  "\x7b\"metadata\":\x7b\"labels\":" ++ marshalMap lib m.Metadata.Labels
    ++ ",\"annotations\":" ++ marshalMap lib m.Metadata.Annotations ++ "\x7d\x7d"

/-! ## The connection and `getResource` -/

/-- One call on the `plugin.CliConnection`. -/
inductive Call where
  | GetApp (name : String)
  | GetOrg (name : String)
  | GetSpace (name : String)
  | CliCommandWithoutTerminalOutput (args : List String)
  deriving DecidableEq, Repr

/-- The methods of `plugin.CliConnection` the program uses.  The first argument
of each is the list of calls made so far in the run.  The three model getters
return the `Guid` field of the model, the only field the program reads. -/
structure CliConnection where
  GetApp : List Call → String → Except String String
  GetOrg : List Call → String → Except String String
  GetSpace : List Call → String → Except String String
  CliCommandWithoutTerminalOutput : List Call → List String → Except String (List String)

/-- The tail of `getResource`, after its `switch`: the endpoint name defaults to
the lower-cased type followed by `s`. -/
def finishResource (lib : GoLib) (resourceType guid endpointName : String) :
    Outcome (String × String) :=
  .ok (guid, if endpointName = "" then lib.ToLower resourceType ++ "s" else endpointName)

/-- The function `getResource`, run after the calls of `trace`; it returns the
extended trace and `(guid, endpointName)`. -/
def getResource (lib : GoLib) (conn : CliConnection) (trace : List Call)
    (resourceType resourceName stackOption : String) :
    List Call × Outcome (String × String) :=
  let lowered := lib.ToLower resourceType
  if lowered = "app" then
    match conn.GetApp trace resourceName with
    | .error err => (trace ++ [.GetApp resourceName], .error err)
    | .ok guid => (trace ++ [.GetApp resourceName], finishResource lib resourceType guid "")
  else if lowered = "org" then
    match conn.GetOrg trace resourceName with
    | .error err => (trace ++ [.GetOrg resourceName], .error err)
    | .ok guid =>
      (trace ++ [.GetOrg resourceName], finishResource lib resourceType guid "organizations")
  else if lowered = "space" then
    match conn.GetSpace trace resourceName with
    | .error err => (trace ++ [.GetSpace resourceName], .error err)
    | .ok guid => (trace ++ [.GetSpace resourceName], finishResource lib resourceType guid "")
  else if lowered = "stack" then
    let command := ["stack", resourceName, "--guid"]
    match conn.CliCommandWithoutTerminalOutput trace command with
    | .error err => (trace ++ [.CliCommandWithoutTerminalOutput command], .error err)
    | .ok [] => (trace ++ [.CliCommandWithoutTerminalOutput command], .panic)
    | .ok (line :: _) =>
      (trace ++ [.CliCommandWithoutTerminalOutput command],
        finishResource lib resourceType (lib.TrimSpace line) "")
  else if lowered = "buildpack" then
    let endpoint := "/v3/buildpacks?names=" ++ resourceName
      ++ (if stackOption ≠ "" then "&stacks=" ++ stackOption else "")
    let command := ["curl", endpoint]
    match conn.CliCommandWithoutTerminalOutput trace command with
    | .error err => (trace ++ [.CliCommandWithoutTerminalOutput command], .error err)
    | .ok lines =>
      match lib.unmarshalBuildpacks (Join lines "\n") with
      | [] =>
        (trace ++ [.CliCommandWithoutTerminalOutput command],
          .error ("no buildpacks match " ++ resourceName ++ " (" ++ stackOption ++ ")"))
      | [guid] =>
        (trace ++ [.CliCommandWithoutTerminalOutput command],
          finishResource lib resourceType guid "")
      | resources =>
        (trace ++ [.CliCommandWithoutTerminalOutput command],
          .error ("too many buildpacks (" ++ toString resources.length ++ ") match "
            ++ resourceName))
  else
    (trace, .error ("unrecognized type " ++ resourceType))

/-! ## The three commands -/

/-- The request path `fmt.Sprintf("/v3/%s/%s", endpointName, guid)`. -/
def resourceEndpoint (endpointName guid : String) : String :=
  "/v3/" ++ endpointName ++ "/" ++ guid

/-- The steps shared by `SetAnnotations` and `UnsetAnnotations` once the
arguments are parsed and the annotation set is known to be non-empty: the
lookup, then the `PATCH` request.  The `ok` value is the text printed. -/
def patchResource (lib : GoLib) (conn : CliConnection) (p : Parsed) :
    List Call × Outcome String :=
  match getResource lib conn [] p.resourceType p.resourceName p.stackOption with
  | (trace, .error err) => (trace, .error err)
  | (trace, .panic) => (trace, .panic)
  | (trace, .ok (guid, endpointName)) =>
    let payload := jsonMarshal lib p.m
    let command := ["curl", resourceEndpoint endpointName guid, "-X", "PATCH", "-d", payload]
    match conn.CliCommandWithoutTerminalOutput trace command with
    | .error err => (trace ++ [.CliCommandWithoutTerminalOutput command], .error err)
    | .ok lines => (trace ++ [.CliCommandWithoutTerminalOutput command], .ok (Join lines "\n"))

/-- The function `SetAnnotations`: the calls made on the connection and the
result. -/
def SetAnnotations (lib : GoLib) (conn : CliConnection) (args : List String) :
    List Call × Outcome String :=
  match processArgs lib args setKeyCheck with
  | .error err => ([], .error err)
  | .panic => ([], .panic)
  | .ok p =>
    if p.m.Metadata.Annotations.length = 0 then
      ([], .error "no annotations specified")
    else
      patchResource lib conn p

/-- The function `UnsetAnnotations`. -/
def UnsetAnnotations (lib : GoLib) (conn : CliConnection) (args : List String) :
    List Call × Outcome String :=
  match processArgs lib args unsetKeyCheck with
  | .error err => ([], .error err)
  | .panic => ([], .panic)
  | .ok p =>
    if p.m.Metadata.Annotations.length = 0 then
      ([], .error "No annotations specified")
    else
      patchResource lib conn p

/-- The text `ViewAnnotations` prints: a header, then one paragraph per
annotation (Go leaves the order of the paragraphs unspecified; here it is the
order of the association list). -/
def viewText (resourceType resourceName : String) (m : metadata) : String :=
  resourceType ++ ": " ++ resourceName ++ "\n\n" ++ "Annotations:\n\n"
    ++ String.join (m.Metadata.Annotations.map (fun e => e.1 ++ ": " ++ e.2.Value ++ "\n\n"))

/-- The function `ViewAnnotations`. -/
def ViewAnnotations (lib : GoLib) (conn : CliConnection) (args : List String) :
    List Call × Outcome String :=
  match processArgs lib args viewKeyCheck with
  | .error err => ([], .error err)
  | .panic => ([], .panic)
  | .ok p =>
    if p.m.Metadata.Annotations.length ≠ 0 then
      ([], .error "extra arguments specified")
    else
      match getResource lib conn [] p.resourceType p.resourceName p.stackOption with
      | (trace, .error err) => (trace, .error err)
      | (trace, .panic) => (trace, .panic)
      | (trace, .ok (guid, endpointName)) =>
        let command := ["curl", resourceEndpoint endpointName guid]
        match conn.CliCommandWithoutTerminalOutput trace command with
        | .error err => (trace ++ [.CliCommandWithoutTerminalOutput command], .error err)
        | .ok lines =>
          match lib.unmarshalMetadata (Join lines "\n") with
          | .error err => (trace ++ [.CliCommandWithoutTerminalOutput command], .error err)
          | .ok m =>
            (trace ++ [.CliCommandWithoutTerminalOutput command],
              .ok (viewText p.resourceType p.resourceName m))

/-! ## The dispatcher of `main.go` -/

/-- How `AnnotationsPlugin.Run` ends: it returns without doing anything (an
unknown command), it exits with the usage message, it returns after a command
that returned `err` (reported on standard error when present), or it panics. -/
inductive RunResult where
  | ignored
  | usageExit
  | returned (err : Option String)
  | panicked
  deriving DecidableEq, Repr

/-- The end of `Run` after a command. -/
def afterCommand (r : List Call × Outcome String) : List Call × RunResult :=
  match r with
  | (trace, .ok _) => (trace, .returned none)
  | (trace, .error err) => (trace, .returned (some err))
  | (trace, .panic) => (trace, .panicked)

/-- The method `AnnotationsPlugin.Run`. -/
def Run (lib : GoLib) (conn : CliConnection) (args : List String) : List Call × RunResult :=
  match args with
  | [] => ([], .panicked)
  | command :: rest =>
    if command = "set-annotation" then
      if args.length < 4 then ([], .usageExit)
      else afterCommand (SetAnnotations lib conn rest)
    else if command = "unset-annotation" then
      if args.length < 4 then ([], .usageExit)
      else afterCommand (UnsetAnnotations lib conn rest)
    else if command = "annotations" then
      if args.length < 3 then ([], .usageExit)
      else afterCommand (ViewAnnotations lib conn rest)
    else
      ([], .ignored)

/-! ## A concrete library and connection, for evaluating the program -/

/-- ASCII lower-casing of one character. -/
def asciiLower (c : Char) : Char :=
  if 'A'.toNat ≤ c.toNat ∧ c.toNat ≤ 'Z'.toNat then Char.ofNat (c.toNat + 32) else c

/-- A library for ASCII inputs: lower-casing of the letters `A` to `Z`,
trimming of blanks, quoting without escapes; the decoders read every response
as an empty metadata and as a listing of the one buildpack whose identifier is
the response text. -/
def asciiLib : GoLib where
  ToLower s := String.mk (s.data.map asciiLower)
  TrimSpace s :=
    String.mk ((s.data.dropWhile (· = ' ')).reverse.dropWhile (· = ' ')).reverse
  jsonString s := "\"" ++ s ++ "\""
  unmarshalMetadata _ := .ok newMetadata
  unmarshalBuildpacks s := if s = "" then [] else [s]

/-- A connection on which every lookup answers `guid-1` and every command
answers one line, `guid-1`. -/
def okConn : CliConnection where
  GetApp _ _ := .ok "guid-1"
  GetOrg _ _ := .ok "guid-1"
  GetSpace _ _ := .ok "guid-1"
  CliCommandWithoutTerminalOutput _ _ := .ok ["guid-1"]

/-! ## Vocabulary of the statements -/

/-- An argument which is non-empty and does not start with `-`: the arguments
the loop of `processArgs` hands to the key check. -/
def plainArg (s : String) : Bool :=
  match s.data with
  | [] => false
  | c :: _ => c ≠ '-'

/-- The key check run on a list of arguments in turn, from the metadata `m`:
the metadata after the last one, or the first error. -/
def checkAll (keyCheck : KeyCheck) : List String → metadata → Except String metadata
  | [], m => .ok m
  | s :: rest, m =>
    match keyCheck s m with
    | .error err => .error err
    | .ok m' => checkAll keyCheck rest m'

/-- The call with which `getResource` looks a name up, one per resource
type. -/
def lookupCall (lib : GoLib) (resourceType resourceName stackOption : String) : Call :=
  let lowered := lib.ToLower resourceType
  if lowered = "app" then .GetApp resourceName
  else if lowered = "org" then .GetOrg resourceName
  else if lowered = "space" then .GetSpace resourceName
  else if lowered = "stack" then
    .CliCommandWithoutTerminalOutput ["stack", resourceName, "--guid"]
  else
    .CliCommandWithoutTerminalOutput
      ["curl", "/v3/buildpacks?names=" ++ resourceName
        ++ (if stackOption ≠ "" then "&stacks=" ++ stackOption else "")]

/-- What it means for the lookup of a name to succeed with an identifier, read
off the answer of the connection to `lookupCall`: the model getters answer with
a model, whose `Guid` is the identifier; the `stack` command answers with at
least one line, whose first line, trimmed, is the identifier; the buildpack
listing decodes to exactly one resource, whose `Guid` is the identifier.  For a
type which is not a resource type there is no lookup. -/
def lookupGuid (lib : GoLib) (conn : CliConnection) (trace : List Call)
    (resourceType resourceName stackOption : String) : Option String :=
  if isResourceType (lib.ToLower resourceType) = false then none
  else
    match lookupCall lib resourceType resourceName stackOption with
    | .GetApp name => (conn.GetApp trace name).toOption
    | .GetOrg name => (conn.GetOrg trace name).toOption
    | .GetSpace name => (conn.GetSpace trace name).toOption
    | .CliCommandWithoutTerminalOutput command =>
      match conn.CliCommandWithoutTerminalOutput trace command with
      | .error _ => none
      | .ok lines =>
        if lib.ToLower resourceType = "stack" then
          (lines.head?).map lib.TrimSpace
        else
          match lib.unmarshalBuildpacks (Join lines "\n") with
          | [guid] => some guid
          | _ => none

/-! ## Lemmas on the loop -/

theorem plainArg_ne_flags {s : String} (h : plainArg s = true) :
    s ≠ "-s" ∧ s ≠ "--stack" ∧ s ≠ "" := by
  refine ⟨?_, ?_, ?_⟩ <;> rintro rfl <;> revert h <;> decide

/-- One iteration of the loop on a plain argument. -/
theorem rangeLoop_step_plain (lib : GoLib) (t : String) (kc : KeyCheck) (k i : Nat)
    (args : List String) (stack : String) (m : metadata) (s : String)
    (hget : args.get? i = some s) (hs : plainArg s = true) :
    rangeLoop lib t kc (k + 1) i args stack m =
      match kc s m with
      | .error err => .error err
      | .ok m' => rangeLoop lib t kc k (i + 1) args stack m' := by
  obtain ⟨h1, h2, h3⟩ := plainArg_ne_flags hs
  rw [rangeLoop]
  simp only [hget, h1, h2, or_self, if_false]
  unfold plainArg at hs
  cases hd : s.data with
  | nil => simp [hd] at hs
  | cons c cs =>
    simp only [hd, decide_eq_true_eq] at hs
    simp [hs, h3]

theorem get?_middle (front pre suf : List String) (s : String) :
    (front ++ s :: pre ++ suf).get? front.length = some s := by
  rw [List.get?_eq_getElem?, List.append_assoc, List.getElem?_append_right (Nat.le_refl _)]
  simp

/-- The loop over a run of plain arguments which the key check accepts. -/
theorem rangeLoop_plain_prefix (lib : GoLib) (t : String) (kc : KeyCheck) (pre : List String) :
    ∀ (front suf : List String) (k : Nat) (stack : String) (m m' : metadata),
      (∀ p ∈ pre, plainArg p = true) → checkAll kc pre m = .ok m' →
      rangeLoop lib t kc (pre.length + k) front.length (front ++ pre ++ suf) stack m =
        rangeLoop lib t kc k (front.length + pre.length) (front ++ pre ++ suf) stack m' := by
  induction pre with
  | nil =>
    intro front suf k stack m m' _ h
    simp only [checkAll, Except.ok.injEq] at h
    simp [h]
  | cons p ps ih =>
    intro front suf k stack m m' hp h
    have hk : (p :: ps).length + k = (ps.length + k) + 1 := by simp; omega
    rw [hk, rangeLoop_step_plain lib t kc _ _ _ stack m p (get?_middle front ps suf p)
      (hp p (List.mem_cons_self _ _))]
    simp only [checkAll] at h
    cases hkc : kc p m with
    | error e => simp [hkc] at h
    | ok m1 =>
      simp only [hkc] at h ⊢
      have := ih (front ++ [p]) suf k stack m1 m' (fun q hq => hp q (List.mem_cons_of_mem _ hq)) h
      simpa [Nat.add_assoc, Nat.add_comm 1] using this

/-- The loop stops with the error of the key check at the first plain argument
the key check rejects. -/
theorem rangeLoop_plain_reject (lib : GoLib) (t : String) (kc : KeyCheck)
    (pre post : List String) (s : String) (stack : String) (m m' : metadata) (err : String)
    (hpre : ∀ p ∈ pre, plainArg p = true) (hacc : checkAll kc pre m = .ok m')
    (hs : plainArg s = true) (hrej : kc s m' = .error err) :
    rangeLoop lib t kc (pre ++ s :: post).length 0 (pre ++ s :: post) stack m = .error err := by
  have h := rangeLoop_plain_prefix lib t kc pre [] (s :: post) (post.length + 1) stack m m'
    hpre hacc
  simp only [List.nil_append, List.length_nil, Nat.zero_add] at h
  have hlen : (pre ++ s :: post).length = pre.length + (post.length + 1) := by simp
  rw [hlen, h, rangeLoop_step_plain lib t kc _ _ _ stack m' s _ hs, hrej]
  simpa using get?_middle pre post [] s

/-- The loop over plain arguments only, all accepted by the key check. -/
theorem rangeLoop_all_plain (lib : GoLib) (t : String) (kc : KeyCheck) (rest : List String)
    (stack : String) (m m' : metadata)
    (hrest : ∀ p ∈ rest, plainArg p = true) (hacc : checkAll kc rest m = .ok m') :
    rangeLoop lib t kc rest.length 0 rest stack m = .ok (stack, m') := by
  have h := rangeLoop_plain_prefix lib t kc rest [] [] 0 stack m m' hrest hacc
  simp only [List.nil_append, List.length_nil, Nat.zero_add, List.append_nil,
    Nat.add_zero] at h
  rw [h, rangeLoop]

theorem processArgs_valid (lib : GoLib) (t n : String) (rest : List String) (kc : KeyCheck)
    (ht : isResourceType (lib.ToLower t) = true) :
    processArgs lib (t :: n :: rest) kc =
      match rangeLoop lib t kc rest.length 0 rest "" newMetadata with
      | .ok (stackOption, m) => .ok ⟨t, n, stackOption, m⟩
      | .error err => .error err
      | .panic => .panic := by
  simp [processArgs, ht]

/-! ## Lemmas on the key checks -/

theorem Index_ge (s : String) (c : Char) : -1 ≤ Index s c := by
  unfold Index
  split <;> omega

theorem Index_eq_neg_one (s : String) (c : Char) : Index s c = -1 ↔ c ∉ s.data := by
  unfold Index
  split <;> rename_i h
  · simp only [h, not_true_eq_false, iff_false]; omega
  · simp [h]

theorem Index_eq_zero (s : String) (c : Char) : Index s c = 0 ↔ s.data.head? = some c := by
  unfold Index
  cases hd : s.data with
  | nil => simp
  | cons a as =>
    by_cases hac : a = c
    · subst hac; simp
    · have hne : ¬ (a == c) = true := by simpa using hac
      by_cases hmem : c ∈ as
      · simp [hmem, List.indexOf_cons, hac, hne]
        omega
      · simp [hmem, hac, Ne.symm hac]

theorem Index_append (k v : String) (c : Char) (hk : c ∉ k.data) :
    Index (k ++ String.singleton c ++ v) c = k.length := by
  unfold Index
  have hd : (k ++ String.singleton c ++ v).data = k.data ++ c :: v.data := by
    rw [String.data_append, String.data_append, List.append_assoc]
    rfl
  rw [hd, if_pos (by simp), List.indexOf_append_of_not_mem hk, List.indexOf_cons_self]
  rfl

theorem setKeyCheck_accepts (a : String) (m : metadata) :
    (∃ m', setKeyCheck a m = .ok m') ↔ 1 ≤ Index a '=' := by
  have := Index_ge a '='
  unfold setKeyCheck
  by_cases h1 : Index a '=' = -1
  · simp [h1]
  · by_cases h0 : Index a '=' = 0
    · simp [h0]
    · simp only [h1, h0, if_false, Except.ok.injEq, exists_eq', true_iff]
      omega

theorem unsetKeyCheck_accepts (a : String) (m : metadata) :
    (∃ m', unsetKeyCheck a m = .ok m') ↔ '=' ∉ a.data := by
  rw [← Index_eq_neg_one]
  unfold unsetKeyCheck
  by_cases h1 : Index a '=' = -1 <;> simp [h1]

theorem checkAll_set_ok (pre : List String) :
    ∀ m, (∀ p ∈ pre, 1 ≤ Index p '=') → ∃ m', checkAll setKeyCheck pre m = .ok m' := by
  induction pre with
  | nil => intro m _; exact ⟨m, rfl⟩
  | cons p ps ih =>
    intro m h
    obtain ⟨m1, h1⟩ := (setKeyCheck_accepts p m).2 (h p (List.mem_cons_self _ _))
    obtain ⟨m2, h2⟩ := ih m1 (fun q hq => h q (List.mem_cons_of_mem _ hq))
    exact ⟨m2, by simp [checkAll, h1, h2]⟩

theorem checkAll_unset_ok (pre : List String) :
    ∀ m, (∀ p ∈ pre, '=' ∉ p.data) → ∃ m', checkAll unsetKeyCheck pre m = .ok m' := by
  induction pre with
  | nil => intro m _; exact ⟨m, rfl⟩
  | cons p ps ih =>
    intro m h
    obtain ⟨m1, h1⟩ := (unsetKeyCheck_accepts p m).2 (h p (List.mem_cons_self _ _))
    obtain ⟨m2, h2⟩ := ih m1 (fun q hq => h q (List.mem_cons_of_mem _ hq))
    exact ⟨m2, by simp [checkAll, h1, h2]⟩

theorem data_key_value (k v : String) :
    (k ++ "=" ++ v).data = k.data ++ '=' :: v.data := by
  rw [String.data_append, String.data_append, List.append_assoc]
  rfl

theorem sliceTo_key_value (k v : String) : sliceTo (k ++ "=" ++ v) k.length = k := by
  apply String.ext
  show List.take k.data.length (k ++ "=" ++ v).data = k.data
  rw [data_key_value, List.take_left]

theorem sliceFrom_key_value (k v : String) : sliceFrom (k ++ "=" ++ v) (k.length + 1) = v := by
  apply String.ext
  show List.drop (k.data.length + 1) (k ++ "=" ++ v).data = v.data
  rw [data_key_value, ← List.drop_drop, List.drop_left]
  rfl

theorem length_pos_of_ne_empty (k : String) (hk : k ≠ "") : 0 < k.length := by
  cases hd : k.data with
  | nil => exact absurd (String.ext hd) hk
  | cons c cs => simp [String.length, hd]

theorem setKeyCheck_split (k v : String) (m : metadata) (hk : k ≠ "") (hne : '=' ∉ k.data) :
    setKeyCheck (k ++ "=" ++ v) m =
      .ok { Metadata := { Labels := m.Metadata.Labels,
                          Annotations := mapSet m.Metadata.Annotations k
                            (NewNullString (some v)) } } := by
  have hidx : Index (k ++ "=" ++ v) '=' = k.length := Index_append k v '=' hne
  have hlen := length_pos_of_ne_empty k hk
  unfold setKeyCheck
  simp only [hidx]
  have e1 : ¬ ((k.length : Int) = -1) := by omega
  have e2 : ¬ ((k.length : Int) = 0) := by omega
  simp [e1, e2, sliceTo_key_value, sliceFrom_key_value]

theorem plainArg_key_value (k v : String) (hk : k ≠ "") (hdash : k.data.head? ≠ some '-') :
    plainArg (k ++ "=" ++ v) = true := by
  unfold plainArg
  rw [data_key_value]
  cases hd : k.data with
  | nil => exact absurd (String.ext hd) hk
  | cons c cs =>
    rw [hd] at hdash
    simpa using hdash

/-! ## Lemmas on the option branch and on the empty argument -/

/-- One iteration of the loop on the empty string: the index `s[0]` panics. -/
theorem rangeLoop_step_empty (lib : GoLib) (t : String) (kc : KeyCheck) (k i : Nat)
    (args : List String) (stack : String) (m : metadata)
    (hget : args.get? i = some "") :
    rangeLoop lib t kc (k + 1) i args stack m = .panic := by
  rw [rangeLoop]
  simp only [hget]
  rfl

/-- One iteration of the loop on the stack option, for a type other than
buildpack. -/
theorem rangeLoop_step_flag_other (lib : GoLib) (t : String) (kc : KeyCheck) (k i : Nat)
    (args : List String) (stack : String) (m : metadata) (flag : String)
    (hget : args.get? i = some flag) (hflag : flag = "-s" ∨ flag = "--stack")
    (ht : lib.ToLower t ≠ "buildpack") :
    rangeLoop lib t kc (k + 1) i args stack m =
      .error ("--stack not allowed with type " ++ lib.ToLower t) := by
  rw [rangeLoop]
  simp only [hget]
  simp [hflag, ht]

/-- One iteration of the loop on the stack option followed by a value, for a
buildpack: the value is taken and its slot is overwritten with the empty
string. -/
theorem rangeLoop_step_flag_buildpack (lib : GoLib) (t : String) (kc : KeyCheck) (k i : Nat)
    (args : List String) (stack : String) (m : metadata) (flag value : String)
    (hget : args.get? i = some flag) (hflag : flag = "-s" ∨ flag = "--stack")
    (ht : lib.ToLower t = "buildpack") (hnext : args.get? (i + 1) = some value) :
    rangeLoop lib t kc (k + 1) i args stack m =
      rangeLoop lib t kc k (i + 1) (args.set (i + 1) "") value m := by
  have hlt : i + 1 < args.length := by
    rw [List.get?_eq_getElem?] at hnext
    exact (List.getElem?_eq_some_iff.1 hnext).1
  have hne : ¬ (i = args.length - 1) := by omega
  rw [rangeLoop]
  simp only [hget, hnext]
  simp [hflag, ht, hne]

theorem isResourceType_buildpack (lib : GoLib) (t : String) (ht : lib.ToLower t = "buildpack") :
    isResourceType (lib.ToLower t) = true := by
  rw [ht]; decide

/-- The loop on a buildpack, after plain accepted arguments, at a stack option
followed by a value: the next iteration reads the overwritten slot and panics. -/
theorem rangeLoop_flag_value_panics (lib : GoLib) (t : String) (kc : KeyCheck)
    (pre post : List String) (flag value : String) (stack : String) (m m' : metadata)
    (ht : lib.ToLower t = "buildpack") (hflag : flag = "-s" ∨ flag = "--stack")
    (hpre : ∀ p ∈ pre, plainArg p = true) (hacc : checkAll kc pre m = .ok m') :
    rangeLoop lib t kc (pre ++ flag :: value :: post).length 0 (pre ++ flag :: value :: post)
      stack m = .panic := by
  have h := rangeLoop_plain_prefix lib t kc pre [] (flag :: value :: post) (post.length + 2)
    stack m m' hpre hacc
  simp only [List.nil_append, List.length_nil, Nat.zero_add] at h
  have hlen : (pre ++ flag :: value :: post).length = pre.length + (post.length + 2) := by simp
  have hg0 : (pre ++ flag :: value :: post).get? pre.length = some flag := by
    simpa using get?_middle pre (value :: post) [] flag
  have hg1 : (pre ++ flag :: value :: post).get? (pre.length + 1) = some value := by
    have := get?_middle (pre ++ [flag]) post [] value
    simpa using this
  rw [hlen, h, rangeLoop_step_flag_buildpack lib t kc _ _ _ stack m' flag value hg0 hflag ht hg1]
  apply rangeLoop_step_empty
  rw [List.get?_eq_getElem?, List.getElem?_set_self]
  simp

/-- The loop, after plain accepted arguments, at an empty argument. -/
theorem rangeLoop_empty_panics (lib : GoLib) (t : String) (kc : KeyCheck)
    (pre post : List String) (stack : String) (m m' : metadata)
    (hpre : ∀ p ∈ pre, plainArg p = true) (hacc : checkAll kc pre m = .ok m') :
    rangeLoop lib t kc (pre ++ "" :: post).length 0 (pre ++ "" :: post) stack m = .panic := by
  have h := rangeLoop_plain_prefix lib t kc pre [] ("" :: post) (post.length + 1)
    stack m m' hpre hacc
  simp only [List.nil_append, List.length_nil, Nat.zero_add] at h
  have hlen : (pre ++ "" :: post).length = pre.length + (post.length + 1) := by simp
  rw [hlen, h]
  apply rangeLoop_step_empty
  simpa using get?_middle pre post [] ""

/-- The loop, after plain accepted arguments, at a stack option, for a type
other than buildpack. -/
theorem rangeLoop_flag_other (lib : GoLib) (t : String) (kc : KeyCheck)
    (pre post : List String) (flag : String) (stack : String) (m m' : metadata)
    (ht : lib.ToLower t ≠ "buildpack") (hflag : flag = "-s" ∨ flag = "--stack")
    (hpre : ∀ p ∈ pre, plainArg p = true) (hacc : checkAll kc pre m = .ok m') :
    rangeLoop lib t kc (pre ++ flag :: post).length 0 (pre ++ flag :: post) stack m =
      .error ("--stack not allowed with type " ++ lib.ToLower t) := by
  have h := rangeLoop_plain_prefix lib t kc pre [] (flag :: post) (post.length + 1)
    stack m m' hpre hacc
  simp only [List.nil_append, List.length_nil, Nat.zero_add] at h
  have hlen : (pre ++ flag :: post).length = pre.length + (post.length + 1) := by simp
  rw [hlen, h]
  apply rangeLoop_step_flag_other _ _ _ _ _ _ _ _ flag _ hflag ht
  simpa using get?_middle pre post [] flag

/-! ## Claims on `processArgs` -/

/-- C1: for a valid resource type `t`, a name `n`, a key `k` that is non-empty,
holds no `=` and does not start with `-`, and any value `v`, `processArgs` with
the key check of `SetAnnotations` on `[t, n, k=v]` succeeds; the annotations are
exactly `k ↦ v` as a set string, the labels are empty, and the split of the
argument at its first `=` gives back `k` and `v`. -/
theorem processArgs_set_key_value (lib : GoLib) (t n k v : String)
    (ht : isResourceType (lib.ToLower t) = true) (hk : k ≠ "") (hne : '=' ∉ k.data)
    (hdash : k.data.head? ≠ some '-') :
    processArgs lib [t, n, k ++ "=" ++ v] setKeyCheck =
        .ok { resourceType := t, resourceName := n, stackOption := "",
              m := { Metadata := { Labels := [],
                                   Annotations := [(k, { Value := v, IsSet := true })] } } }
      ∧ Index (k ++ "=" ++ v) '=' = k.length
      ∧ sliceTo (k ++ "=" ++ v) k.length = k
      ∧ sliceFrom (k ++ "=" ++ v) (k.length + 1) = v := by
  refine ⟨?_, Index_append k v '=' hne, sliceTo_key_value k v, sliceFrom_key_value k v⟩
  have hplain : ∀ p ∈ [k ++ "=" ++ v], plainArg p = true := by
    intro p hp
    rw [List.mem_singleton] at hp
    rw [hp]
    exact plainArg_key_value k v hk hdash
  have hacc : checkAll setKeyCheck [k ++ "=" ++ v] newMetadata =
      .ok { Metadata := { Labels := [],
                          Annotations := [(k, { Value := v, IsSet := true })] } } := by
    simp only [checkAll, setKeyCheck_split k v newMetadata hk hne]
    rfl
  rw [processArgs_valid lib t n _ _ ht,
    rangeLoop_all_plain lib t setKeyCheck _ "" newMetadata _ hplain hacc]

theorem processArgs_set_key_value_witness :
    processArgs asciiLib ["App", "web", "owner" ++ "=" ++ "a=b"] setKeyCheck =
      .ok { resourceType := "App", resourceName := "web", stackOption := "",
            m := { Metadata := { Labels := [],
                                 Annotations := [("owner", { Value := "a=b", IsSet := true })] } } } :=
  (processArgs_set_key_value asciiLib "App" "web" "owner" "a=b" (by decide) (by decide)
    (by decide) (by decide)).1

/-- C2 (the code departs from the claim): on a buildpack, after arguments the
loop hands to the key check and the key check accepts, a stack option followed
by a value makes `processArgs` panic: the slot of the value is overwritten with
the empty string, and the next iteration indexes `s[0]` on it before testing
`s != ""`. -/
theorem processArgs_stack_option_panics (lib : GoLib) (t n : String) (kc : KeyCheck)
    (pre post : List String) (flag value : String) (m' : metadata)
    (ht : lib.ToLower t = "buildpack") (hflag : flag = "-s" ∨ flag = "--stack")
    (hpre : ∀ p ∈ pre, plainArg p = true) (hacc : checkAll kc pre newMetadata = .ok m') :
    processArgs lib (t :: n :: (pre ++ flag :: value :: post)) kc = .panic := by
  rw [processArgs_valid lib t n _ _ (isResourceType_buildpack lib t ht),
    rangeLoop_flag_value_panics lib t kc pre post flag value "" newMetadata m' ht hflag hpre hacc]

theorem processArgs_stack_option_panics_witness :
    processArgs asciiLib ["buildpack", "ruby", "owner=me", "--stack", "cflinuxfs3"]
      setKeyCheck = .panic :=
  processArgs_stack_option_panics asciiLib "buildpack" "ruby" setKeyCheck ["owner=me"] []
    "--stack" "cflinuxfs3" _ (by decide) (by decide) (by decide) rfl

/-- C10 (the code departs from the claim): for a valid type, after arguments
the loop hands to the key check and the key check accepts, an empty argument
makes `processArgs` panic at the index `s[0]`, whatever the key check. -/
theorem processArgs_empty_argument_panics (lib : GoLib) (t n : String) (kc : KeyCheck)
    (pre post : List String) (m' : metadata)
    (ht : isResourceType (lib.ToLower t) = true)
    (hpre : ∀ p ∈ pre, plainArg p = true) (hacc : checkAll kc pre newMetadata = .ok m') :
    processArgs lib (t :: n :: (pre ++ "" :: post)) kc = .panic := by
  rw [processArgs_valid lib t n _ _ ht,
    rangeLoop_empty_panics lib t kc pre post "" newMetadata m' hpre hacc]

theorem processArgs_empty_argument_panics_witness :
    processArgs asciiLib ["app", "web", ""] viewKeyCheck = .panic :=
  processArgs_empty_argument_panics asciiLib "app" "web" viewKeyCheck [] [] newMetadata
    (by decide) (by decide) rfl

/-- C9, amended: for a valid resource type other than buildpack, when the
arguments before a stack option (`-s` or `--stack`) are non-empty, do not start
with `-` and are accepted by the key check in turn, `processArgs` returns the
error `--stack not allowed with type <lower-cased type>` and no result, whatever
follows the option. -/
theorem processArgs_stack_option_other_types (lib : GoLib) (t n : String) (kc : KeyCheck)
    (pre post : List String) (flag : String) (m' : metadata)
    (ht : isResourceType (lib.ToLower t) = true) (hbp : lib.ToLower t ≠ "buildpack")
    (hflag : flag = "-s" ∨ flag = "--stack")
    (hpre : ∀ p ∈ pre, plainArg p = true) (hacc : checkAll kc pre newMetadata = .ok m') :
    processArgs lib (t :: n :: (pre ++ flag :: post)) kc =
      .error ("--stack not allowed with type " ++ lib.ToLower t) := by
  rw [processArgs_valid lib t n _ _ ht,
    rangeLoop_flag_other lib t kc pre post flag "" newMetadata m' hbp hflag hpre hacc]

theorem processArgs_stack_option_other_types_witness :
    processArgs asciiLib ["Space", "dev", "a=b", "-s", "cflinuxfs3", "c=d"] setKeyCheck =
      .error "--stack not allowed with type space" :=
  processArgs_stack_option_other_types asciiLib "Space" "dev" setKeyCheck ["a=b"]
    ["cflinuxfs3", "c=d"] "-s" _ (by decide) (by decide) (by decide) (by decide) rfl

/-- C9 as first stated fails: the key check of `SetAnnotations` accepts `-a=b`
(its first `=` is at index 2), yet with `-a=b` before the stack option
`processArgs` returns the error of the option guard, not the stack error. -/
theorem processArgs_stack_option_after_dash_argument :
    checkAll setKeyCheck ["-a=b"] newMetadata =
        .ok { Metadata := { Labels := [],
                            Annotations := [("-a", { Value := "b", IsSet := true })] } }
      ∧ processArgs asciiLib ["app", "web", "-a=b", "--stack"] setKeyCheck =
        .error "invalid option of '-a=b'"
      ∧ processArgs asciiLib ["app", "web", "-a=b", "--stack"] setKeyCheck ≠
        .error ("--stack not allowed with type " ++ asciiLib.ToLower "app") :=
  ⟨rfl, by decide, by decide⟩

/-! ## Where an error of the loop comes from -/

/-- An error of the loop is one of its own three messages or an error of the
key check. -/
theorem rangeLoop_error_origin (lib : GoLib) (t : String) (kc : KeyCheck) (e : String) :
    ∀ (k i : Nat) (args : List String) (stack : String) (m : metadata),
      rangeLoop lib t kc k i args stack m = .error e →
        e = "--stack not allowed with type " ++ lib.ToLower t
          ∨ (∃ s, e = "No stack for option '" ++ s ++ "'")
          ∨ (∃ s, e = "invalid option of '" ++ s ++ "'")
          ∨ (∃ s m0, kc s m0 = .error e) := by
  intro k
  induction k with
  | zero => intro i args stack m h; simp [rangeLoop] at h
  | succ k ih =>
    intro i args stack m h
    rw [rangeLoop] at h
    split at h
    · simp at h
    · rename_i s _
      split at h
      · split at h
        · simp only [Outcome.error.injEq] at h
          exact Or.inl h.symm
        · split at h
          · simp only [Outcome.error.injEq] at h
            exact Or.inr (Or.inl ⟨s, h.symm⟩)
          · split at h
            · simp at h
            · exact ih _ _ _ _ h
      · split at h
        · simp at h
        · split at h
          · simp only [Outcome.error.injEq] at h
            exact Or.inr (Or.inr (Or.inl ⟨s, h.symm⟩))
          · split at h
            · split at h
              · rename_i err hkc
                simp only [Outcome.error.injEq] at h
                subst h
                exact Or.inr (Or.inr (Or.inr ⟨s, m, hkc⟩))
              · exact ih _ _ _ _ h
            · exact ih _ _ _ _ h

/-- Two texts that differ within their first `n` characters stay different
whatever is appended to each. -/
theorem append_ne_of_take_ne (a b x y : String) (n : Nat)
    (ha : n ≤ a.data.length) (hb : n ≤ b.data.length)
    (h : a.data.take n ≠ b.data.take n) : a ++ x ≠ b ++ y := by
  intro e
  apply h
  have e' := congrArg (fun s : String => s.data.take n) e
  simp only [String.data_append] at e'
  rwa [List.take_append_of_le_length ha, List.take_append_of_le_length hb] at e'

theorem setKeyCheck_error (s : String) (m : metadata) (e : String)
    (h : setKeyCheck s m = .error e) :
    e = "no value part given for annotation '" ++ (s ++ "'")
      ∨ e = "no key part given for annotation '" ++ (s ++ "'") := by
  unfold setKeyCheck at h
  simp only at h
  split at h
  · simp only [Except.error.injEq] at h
    exact Or.inl (by rw [← h, String.append_assoc])
  · split at h
    · simp only [Except.error.injEq] at h
      exact Or.inr (by rw [← h, String.append_assoc])
    · simp at h

theorem unsetKeyCheck_error (s : String) (m : metadata) (e : String)
    (h : unsetKeyCheck s m = .error e) :
    e = "annotation key '" ++ (s ++ "' cannot contain an '='") := by
  unfold unsetKeyCheck at h
  simp only at h
  split at h
  · simp only [Except.error.injEq] at h
    rw [← h, String.append_assoc]
  · simp at h

/-- None of the three key checks of the program returns the message of the
type check. -/
theorem keyCheck_error_ne_type_error (kc : KeyCheck)
    (hkc : kc = setKeyCheck ∨ kc = unsetKeyCheck ∨ kc = viewKeyCheck)
    (t s : String) (m : metadata) :
    kc s m ≠ .error ("not a valid resource type: " ++ t) := by
  intro h
  rcases hkc with rfl | rfl | rfl
  · rcases setKeyCheck_error s m _ h with e | e
    · exact append_ne_of_take_ne _ _ _ _ 3 (by decide) (by decide) (by decide) e
    · exact append_ne_of_take_ne _ _ _ _ 3 (by decide) (by decide) (by decide) e
  · exact append_ne_of_take_ne _ _ _ _ 1 (by decide) (by decide) (by decide)
      (unsetKeyCheck_error s m _ h)
  · simp [viewKeyCheck] at h

/-- The loop never returns the message of the type check when the key check
does not. -/
theorem rangeLoop_ne_type_error (lib : GoLib) (t : String) (kc : KeyCheck)
    (hkc : ∀ s m, kc s m ≠ .error ("not a valid resource type: " ++ t))
    (k i : Nat) (args : List String) (stack : String) (m : metadata) :
    rangeLoop lib t kc k i args stack m ≠ .error ("not a valid resource type: " ++ t) := by
  intro h
  rcases rangeLoop_error_origin lib t kc _ k i args stack m h with e | ⟨s, e⟩ | ⟨s, e⟩ | ⟨s, m0, e⟩
  · exact append_ne_of_take_ne _ _ _ _ 1 (by decide) (by decide) (by decide) e
  · rw [String.append_assoc] at e
    exact append_ne_of_take_ne _ _ _ _ 1 (by decide) (by decide) (by decide) e
  · rw [String.append_assoc] at e
    exact append_ne_of_take_ne _ _ _ _ 1 (by decide) (by decide) (by decide) e
  · exact hkc s m0 e

theorem isResourceType_iff (lowered : String) :
    isResourceType lowered = true ↔ lowered ∈ ["app", "org", "space", "stack", "buildpack"] := by
  simp [isResourceType, or_assoc]

/-- C3: on an argument list of at least two elements, with any of the three
key checks of the program, `processArgs` returns the error
`not a valid resource type: <t>` exactly when the lower-cased first argument is
none of app, org, space, stack, buildpack; and when it succeeds it returns the
first argument as typed as the resource type and the second as the name. -/
theorem processArgs_resource_type (lib : GoLib) (t n : String) (rest : List String)
    (kc : KeyCheck) (hkc : kc = setKeyCheck ∨ kc = unsetKeyCheck ∨ kc = viewKeyCheck) :
    (processArgs lib (t :: n :: rest) kc = .error ("not a valid resource type: " ++ t)
        ↔ lib.ToLower t ∉ ["app", "org", "space", "stack", "buildpack"])
      ∧ (∀ p, processArgs lib (t :: n :: rest) kc = .ok p →
          p.resourceType = t ∧ p.resourceName = n) := by
  rw [← isResourceType_iff]
  cases ht : isResourceType (lib.ToLower t) with
  | false =>
    have hp : processArgs lib (t :: n :: rest) kc =
        .error ("not a valid resource type: " ++ t) := by simp [processArgs, ht]
    rw [hp]
    simp
  | true =>
    rw [processArgs_valid lib t n rest kc ht]
    have hne := rangeLoop_ne_type_error lib t kc
      (keyCheck_error_ne_type_error kc hkc t) rest.length 0 rest "" newMetadata
    cases hl : rangeLoop lib t kc rest.length 0 rest "" newMetadata with
    | ok r =>
      simp only [reduceCtorEq, not_true_eq_false, iff_false, not_false_eq_true,
        true_and, Outcome.ok.injEq]
      intro p hp
      subst hp
      exact ⟨rfl, rfl⟩
    | error e =>
      rw [hl] at hne
      simp only [Outcome.error.injEq, not_true_eq_false, iff_false, reduceCtorEq,
        false_implies, implies_true, and_true]
      intro he
      exact hne (by rw [he])
    | panic => simp

theorem processArgs_resource_type_witness :
    processArgs asciiLib ["Route", "web", "a=b"] setKeyCheck =
        .error ("not a valid resource type: " ++ "Route")
      ∧ (∀ p, processArgs asciiLib ["STACK", "cflinuxfs3"] viewKeyCheck = .ok p →
          p.resourceType = "STACK" ∧ p.resourceName = "cflinuxfs3") :=
  ⟨(processArgs_resource_type asciiLib "Route" "web" ["a=b"] setKeyCheck (Or.inl rfl)).1.2
      (by decide),
   (processArgs_resource_type asciiLib "STACK" "cflinuxfs3" [] viewKeyCheck
      (Or.inr (Or.inr rfl))).2⟩

/-! ## Claims on the key checks of `SetAnnotations` and `UnsetAnnotations` -/

theorem plainArg_of_head (s : String) (c : Char) (hc : c ≠ '-') (h : s.data.head? = some c) :
    plainArg s = true := by
  unfold plainArg
  cases hd : s.data with
  | nil => simp [hd] at h
  | cons a as =>
    simp only [hd, List.head?_cons, Option.some.injEq] at h
    simp [h, hc]

theorem mapGet_mapSet (m : StringMap) (k : String) (v : NullString) :
    mapGet (mapSet m k v) k = some v := by
  simp [mapGet, mapSet]

/-- A command stops without a call at the first plain argument its key check
rejects: the result of `processArgs` in that case. -/
theorem processArgs_plain_reject (lib : GoLib) (t n : String) (kc : KeyCheck)
    (pre post : List String) (s : String) (m' : metadata) (err : String)
    (ht : isResourceType (lib.ToLower t) = true)
    (hpre : ∀ p ∈ pre, plainArg p = true) (hacc : checkAll kc pre newMetadata = .ok m')
    (hs : plainArg s = true) (hrej : kc s m' = .error err) :
    processArgs lib (t :: n :: (pre ++ s :: post)) kc = .error err := by
  rw [processArgs_valid lib t n _ _ ht,
    rangeLoop_plain_reject lib t kc pre post s "" newMetadata m' err hpre hacc hs hrej]

/-- C4, amended: for a valid type, when the annotation arguments before `s` are
non-empty, do not start with `-` and are accepted by the key check (each has its
first `=` at an index of at least 1), so that the parser reaches `s`: if `s` is
non-empty, does not start with `-` and holds no `=`, `SetAnnotations` returns
`no value part given for annotation '<s>'` and makes no call on the connection;
if `s` begins with `=`, it returns `no key part given for annotation '<s>'` and
makes no call; and the key check accepts an argument exactly when its first `=`
is at an index of at least 1. -/
theorem SetAnnotations_rejects_malformed (lib : GoLib) (conn : CliConnection) (t n : String)
    (pre post : List String) (s : String)
    (ht : isResourceType (lib.ToLower t) = true)
    (hpre : ∀ p ∈ pre, plainArg p = true ∧ 1 ≤ Index p '=') :
    (plainArg s = true → '=' ∉ s.data →
        SetAnnotations lib conn (t :: n :: (pre ++ s :: post)) =
          ([], .error ("no value part given for annotation '" ++ s ++ "'")))
      ∧ (s.data.head? = some '=' →
        SetAnnotations lib conn (t :: n :: (pre ++ s :: post)) =
          ([], .error ("no key part given for annotation '" ++ s ++ "'")))
      ∧ (∀ a m, (∃ m', setKeyCheck a m = .ok m') ↔ 1 ≤ Index a '=') := by
  obtain ⟨m', hacc⟩ := checkAll_set_ok pre newMetadata (fun p hp => (hpre p hp).2)
  have hplain : ∀ p ∈ pre, plainArg p = true := fun p hp => (hpre p hp).1
  refine ⟨?_, ?_, setKeyCheck_accepts⟩
  · intro hs hno
    have hrej : setKeyCheck s m' = .error ("no value part given for annotation '" ++ s ++ "'") := by
      simp [setKeyCheck, (Index_eq_neg_one s '=').2 hno]
    simp only [SetAnnotations,
      processArgs_plain_reject lib t n setKeyCheck pre post s m' _ ht hplain hacc hs hrej]
  · intro hhead
    have hs : plainArg s = true := plainArg_of_head s '=' (by decide) hhead
    have hrej : setKeyCheck s m' = .error ("no key part given for annotation '" ++ s ++ "'") := by
      simp [setKeyCheck, (Index_eq_zero s '=').2 hhead]
    simp only [SetAnnotations,
      processArgs_plain_reject lib t n setKeyCheck pre post s m' _ ht hplain hacc hs hrej]

theorem SetAnnotations_rejects_malformed_witness :
    SetAnnotations asciiLib okConn ["app", "web", "a=b", "owner", "c=d"] =
        ([], .error "no value part given for annotation 'owner'")
      ∧ SetAnnotations asciiLib okConn ["app", "web", "a=b", "=me", "c=d"] =
        ([], .error "no key part given for annotation '=me'") :=
  ⟨(SetAnnotations_rejects_malformed asciiLib okConn "app" "web" ["a=b"] ["c=d"] "owner"
      (by decide) (by decide)).1 (by decide) (by decide),
   (SetAnnotations_rejects_malformed asciiLib okConn "app" "web" ["a=b"] ["c=d"] "=me"
      (by decide) (by decide)).2.1 (by decide)⟩

/-- C4 as first stated fails: `-x` holds no `=` and the parser reaches it after
the accepted `a=b`, yet `SetAnnotations` returns the error of the option guard,
not `no value part given for annotation '-x'`; no call is made either way. -/
theorem SetAnnotations_option_like_argument :
    '=' ∉ "-x".data
      ∧ SetAnnotations asciiLib okConn ["app", "web", "a=b", "-x"] =
        ([], .error "invalid option of '-x'")
      ∧ SetAnnotations asciiLib okConn ["app", "web", "a=b", "-x"] ≠
        ([], .error ("no value part given for annotation '" ++ "-x" ++ "'")) := by
  decide

theorem unsetKeyCheck_ok (a : String) (m : metadata) (h : '=' ∉ a.data) :
    unsetKeyCheck a m =
      .ok { Metadata := { Labels := m.Metadata.Labels,
                          Annotations := mapSet m.Metadata.Annotations a (NewNullString none) } } := by
  simp [unsetKeyCheck, (Index_eq_neg_one a '=').2 h]

theorem unsetKeyCheck_reject (a : String) (m : metadata) (h : '=' ∈ a.data) :
    unsetKeyCheck a m = .error ("annotation key '" ++ a ++ "' cannot contain an '='") := by
  have hne : ¬ Index a '=' = -1 := fun e => (Index_eq_neg_one a '=').1 e h
  simp [unsetKeyCheck, hne]

/-- The payload for a single annotation name: its member is the JSON `null`. -/
theorem jsonMarshal_single_unset (lib : GoLib) (a : String) :
    jsonMarshal lib { Metadata := { Labels := [],
                                    Annotations := [(a, { Value := "", IsSet := false })] } } =
      "\x7b\"metadata\":\x7b\"labels\":\x7b\x7d,\"annotations\":\x7b" ++ lib.jsonString a
        ++ ":null\x7d\x7d\x7d" := by
  generalize hq : lib.jsonString a = q
  have : jsonMarshal lib { Metadata := { Labels := [],
                                         Annotations := [(a, { Value := "", IsSet := false })] } } =
      "\x7b\"metadata\":\x7b\"labels\":" ++ ("\x7b" ++ "" ++ "\x7d") ++ ",\"annotations\":"
        ++ ("\x7b" ++ (q ++ ":" ++ "null") ++ "\x7d") ++ "\x7d\x7d" := by
    simp [jsonMarshal, marshalMap, Join, NullString.MarshalJSON, NewNullString, hq]
  rw [this]
  apply String.ext
  simp only [String.data_append, List.append_assoc]
  rfl

/-- C5: the key check of `UnsetAnnotations` accepts an argument exactly when it
holds no `=`; an accepted name is stored as the unset `NullString`, whose JSON
is `null` (for a single name the payload is
`{"metadata":{"labels":{},"annotations":{<name>:null}}}`); an argument holding
`=` yields `annotation key '<s>' cannot contain an '='`, and when the parser
reaches such an argument `UnsetAnnotations` returns that error without any call
on the connection. -/
theorem UnsetAnnotations_key_check (lib : GoLib) (conn : CliConnection) (t n : String)
    (pre post : List String) (s : String)
    (ht : isResourceType (lib.ToLower t) = true)
    (hpre : ∀ p ∈ pre, plainArg p = true ∧ '=' ∉ p.data) :
    (∀ a m, (∃ m', unsetKeyCheck a m = .ok m') ↔ '=' ∉ a.data)
      ∧ (∀ a m m', unsetKeyCheck a m = .ok m' →
          mapGet m'.Metadata.Annotations a = some { Value := "", IsSet := false }
            ∧ m'.Metadata.Labels = m.Metadata.Labels
            ∧ NullString.MarshalJSON lib { Value := "", IsSet := false } = "null")
      ∧ (plainArg s = true → '=' ∉ s.data →
          ∃ p, processArgs lib [t, n, s] unsetKeyCheck = .ok p
            ∧ p.m = { Metadata := { Labels := [],
                                    Annotations := [(s, { Value := "", IsSet := false })] } }
            ∧ jsonMarshal lib p.m =
                "\x7b\"metadata\":\x7b\"labels\":\x7b\x7d,\"annotations\":\x7b"
                  ++ lib.jsonString s ++ ":null\x7d\x7d\x7d")
      ∧ (∀ a m, '=' ∈ a.data →
          unsetKeyCheck a m = .error ("annotation key '" ++ a ++ "' cannot contain an '='"))
      ∧ (plainArg s = true → '=' ∈ s.data →
          UnsetAnnotations lib conn (t :: n :: (pre ++ s :: post)) =
            ([], .error ("annotation key '" ++ s ++ "' cannot contain an '='"))) := by
  refine ⟨unsetKeyCheck_accepts, ?_, ?_, unsetKeyCheck_reject, ?_⟩
  · intro a m m' h
    have hno : '=' ∉ a.data := (unsetKeyCheck_accepts a m).1 ⟨m', h⟩
    rw [unsetKeyCheck_ok a m hno] at h
    simp only [Except.ok.injEq] at h
    subst h
    exact ⟨mapGet_mapSet _ _ _, rfl, rfl⟩
  · intro hs hno
    have hplain : ∀ p ∈ [s], plainArg p = true := by
      intro p hp
      rw [List.mem_singleton] at hp
      rw [hp]; exact hs
    have hacc : checkAll unsetKeyCheck [s] newMetadata =
        .ok { Metadata := { Labels := [],
                            Annotations := [(s, { Value := "", IsSet := false })] } } := by
      simp only [checkAll, unsetKeyCheck_ok s newMetadata hno]
      rfl
    refine ⟨{ resourceType := t, resourceName := n, stackOption := "",
              m := { Metadata := { Labels := [],
                                   Annotations := [(s, { Value := "", IsSet := false })] } } },
      ?_, rfl, jsonMarshal_single_unset lib s⟩
    rw [processArgs_valid lib t n _ _ ht,
      rangeLoop_all_plain lib t unsetKeyCheck _ "" newMetadata _ hplain hacc]
  · intro hs hin
    obtain ⟨m', hacc⟩ := checkAll_unset_ok pre newMetadata (fun p hp => (hpre p hp).2)
    have hplain : ∀ p ∈ pre, plainArg p = true := fun p hp => (hpre p hp).1
    simp only [UnsetAnnotations,
      processArgs_plain_reject lib t n unsetKeyCheck pre post s m' _ ht hplain hacc hs
        (unsetKeyCheck_reject s m' hin)]

theorem UnsetAnnotations_key_check_witness :
    UnsetAnnotations asciiLib okConn ["org", "acme", "owner", "team=core"] =
      ([], .error "annotation key 'team=core' cannot contain an '='") :=
  (UnsetAnnotations_key_check asciiLib okConn "org" "acme" ["owner"] [] "team=core"
    (by decide) (by decide)).2.2.2.2 (by decide) (by decide)

/-! ## Claims on `getResource` and on the calls of the commands -/

theorem processArgs_ok_valid (lib : GoLib) (args : List String) (kc : KeyCheck) (p : Parsed)
    (h : processArgs lib args kc = .ok p) :
    isResourceType (lib.ToLower p.resourceType) = true := by
  unfold processArgs at h
  split at h
  · simp at h
  · split at h
    · simp at h
    · rename_i hv
      split at h
      · simp at h
      · split at h
        · simp only [Outcome.ok.injEq] at h
          subst h
          simpa using hv
        · simp at h
        · simp at h

/-- For a resource type, `getResource` makes exactly the lookup call. -/
theorem getResource_trace (lib : GoLib) (conn : CliConnection) (trace : List Call)
    (t name stack : String) (ht : isResourceType (lib.ToLower t) = true) :
    (getResource lib conn trace t name stack).1 = trace ++ [lookupCall lib t name stack] := by
  rw [isResourceType_iff] at ht
  unfold getResource lookupCall
  simp only
  by_cases h1 : lib.ToLower t = "app"
  · simp only [if_pos h1]; split <;> rfl
  by_cases h2 : lib.ToLower t = "org"
  · simp only [if_neg h1, if_pos h2]; split <;> rfl
  by_cases h3 : lib.ToLower t = "space"
  · simp only [if_neg h1, if_neg h2, if_pos h3]; split <;> rfl
  by_cases h4 : lib.ToLower t = "stack"
  · simp only [if_neg h1, if_neg h2, if_neg h3, if_pos h4]; split <;> rfl
  by_cases h5 : lib.ToLower t = "buildpack"
  · simp only [if_neg h1, if_neg h2, if_neg h3, if_neg h4, if_pos h5]
    split
    · rfl
    · split <;> rfl
  · simp [h1, h2, h3, h4, h5] at ht

/-- When the lookup succeeds, `getResource` returns its identifier and the
endpoint name of the type. -/
theorem getResource_of_lookupGuid (lib : GoLib) (conn : CliConnection) (trace : List Call)
    (t name stack g : String) (h : lookupGuid lib conn trace t name stack = some g) :
    (getResource lib conn trace t name stack).2 =
      .ok (g, if lib.ToLower t = "org" then "organizations" else lib.ToLower t ++ "s") := by
  unfold lookupGuid at h
  split at h
  · simp at h
  rename_i ht
  have ht' : lib.ToLower t ∈ ["app", "org", "space", "stack", "buildpack"] := by
    rw [← isResourceType_iff]; simpa using ht
  unfold lookupCall at h
  unfold getResource
  simp only at h ⊢
  by_cases h1 : lib.ToLower t = "app"
  · simp only [if_pos h1] at h ⊢
    cases hc : conn.GetApp trace name with
    | error e => simp [hc, Except.toOption] at h
    | ok g' =>
      simp only [hc, Except.toOption, Option.some.injEq] at h
      subst h
      simp [finishResource, h1]
  by_cases h2 : lib.ToLower t = "org"
  · simp only [if_neg h1, if_pos h2] at h ⊢
    cases hc : conn.GetOrg trace name with
    | error e => simp [hc, Except.toOption] at h
    | ok g' =>
      simp only [hc, Except.toOption, Option.some.injEq] at h
      subst h
      simp [finishResource]
  by_cases h3 : lib.ToLower t = "space"
  · simp only [if_neg h1, if_neg h2, if_pos h3] at h ⊢
    cases hc : conn.GetSpace trace name with
    | error e => simp [hc, Except.toOption] at h
    | ok g' =>
      simp only [hc, Except.toOption, Option.some.injEq] at h
      subst h
      simp [finishResource, h3]
  by_cases h4 : lib.ToLower t = "stack"
  · simp only [if_neg h1, if_neg h2, if_neg h3, if_pos h4] at h ⊢
    cases hc : conn.CliCommandWithoutTerminalOutput trace ["stack", name, "--guid"] with
    | error e => simp [hc] at h
    | ok lines =>
      cases lines with
      | nil => simp [hc] at h
      | cons line rest =>
        simp only [hc, List.head?_cons, Option.map_some', Option.some.injEq] at h
        subst h
        simp [finishResource, h4]
  by_cases h5 : lib.ToLower t = "buildpack"
  · simp only [if_neg h1, if_neg h2, if_neg h3, if_neg h4, if_pos h5] at h ⊢
    split at h
    · simp at h
    · split at h
      · rename_i guid hu
        simp only [Option.some.injEq] at h
        subst h
        simp [hu, finishResource, h5]
      · simp at h
  · simp [h1, h2, h3, h4, h5] at ht'

/-- C6: when the lookup of the name of a resource of type `t` succeeds with the
identifier `g` (which takes `t`, in any letter case, to be one of the resource
types), `getResource` makes the lookup call and returns `(g, e)` without error,
where `e` is `organizations` when the lower-cased type is `org` and the
lower-cased type followed by `s` otherwise; the request path of the commands is
`/v3/e/g`; and for a type `processArgs` accepted `getResource` never returns
from its `unrecognized type` branch, the one branch that leaves the trace as it
was. -/
theorem getResource_endpoint (lib : GoLib) (conn : CliConnection) (trace : List Call)
    (t name stack g : String) (h : lookupGuid lib conn trace t name stack = some g) :
    getResource lib conn trace t name stack =
        (trace ++ [lookupCall lib t name stack],
          .ok (g, if lib.ToLower t = "org" then "organizations" else lib.ToLower t ++ "s"))
      ∧ resourceEndpoint (if lib.ToLower t = "org" then "organizations"
            else lib.ToLower t ++ "s") g =
          "/v3/" ++ (if lib.ToLower t = "org" then "organizations" else lib.ToLower t ++ "s")
            ++ "/" ++ g
      ∧ (∀ (kc : KeyCheck) (args : List String) (p : Parsed) (conn' : CliConnection)
          (trace' : List Call), processArgs lib args kc = .ok p →
          (getResource lib conn' trace' p.resourceType p.resourceName p.stackOption).1 =
              trace' ++ [lookupCall lib p.resourceType p.resourceName p.stackOption]
            ∧ getResource lib conn' trace' p.resourceType p.resourceName p.stackOption ≠
              (trace', .error ("unrecognized type " ++ p.resourceType))) := by
  have ht : isResourceType (lib.ToLower t) = true := by
    unfold lookupGuid at h
    split at h
    · simp at h
    · rename_i hv; simpa using hv
  refine ⟨?_, rfl, ?_⟩
  · exact Prod.ext (getResource_trace lib conn trace t name stack ht)
      (getResource_of_lookupGuid lib conn trace t name stack g h)
  · intro kc args p conn' trace' hp
    have hv := processArgs_ok_valid lib args kc p hp
    have htr := getResource_trace lib conn' trace' p.resourceType p.resourceName p.stackOption hv
    refine ⟨htr, ?_⟩
    intro he
    rw [he] at htr
    have := congrArg List.length htr
    simp at this

theorem getResource_endpoint_witness :
    getResource asciiLib okConn [] "ORG" "acme" "" =
      ([.GetOrg "acme"], .ok ("guid-1", "organizations"))
    ∧ getResource asciiLib okConn [] "BuildPack" "ruby" "" =
      ([.CliCommandWithoutTerminalOutput ["curl", "/v3/buildpacks?names=ruby"]],
        .ok ("guid-1", "buildpacks")) :=
  ⟨(getResource_endpoint asciiLib okConn [] "ORG" "acme" "" "guid-1" (by decide)).1,
   (getResource_endpoint asciiLib okConn [] "BuildPack" "ruby" "" "guid-1" (by decide)).1⟩

/-- The calls of the shared tail of `SetAnnotations` and `UnsetAnnotations`,
when the lookup succeeds: the lookup call, then the `PATCH` request. -/
theorem patchResource_trace (lib : GoLib) (conn : CliConnection) (p : Parsed) (g e : String)
    (hv : isResourceType (lib.ToLower p.resourceType) = true)
    (hr : (getResource lib conn [] p.resourceType p.resourceName p.stackOption).2 = .ok (g, e)) :
    (patchResource lib conn p).1 =
      [lookupCall lib p.resourceType p.resourceName p.stackOption,
        .CliCommandWithoutTerminalOutput
          ["curl", resourceEndpoint e g, "-X", "PATCH", "-d", jsonMarshal lib p.m]] := by
  have htr := getResource_trace lib conn [] p.resourceType p.resourceName p.stackOption hv
  unfold patchResource
  cases hg : getResource lib conn [] p.resourceType p.resourceName p.stackOption with
  | mk tr res =>
    rw [hg] at hr htr
    simp only at hr htr
    subst hr
    simp only [htr, List.nil_append]
    split <;> rfl

/-- The calls of `ViewAnnotations` when parsing leaves no annotation and the
lookup succeeds: the lookup call, then the `GET` request. -/
theorem ViewAnnotations_trace (lib : GoLib) (conn : CliConnection) (args : List String)
    (p : Parsed) (g e : String) (hp : processArgs lib args viewKeyCheck = .ok p)
    (hm : p.m.Metadata.Annotations = [])
    (hr : (getResource lib conn [] p.resourceType p.resourceName p.stackOption).2 = .ok (g, e)) :
    (ViewAnnotations lib conn args).1 =
      [lookupCall lib p.resourceType p.resourceName p.stackOption,
        .CliCommandWithoutTerminalOutput ["curl", resourceEndpoint e g]] := by
  have hv := processArgs_ok_valid lib args viewKeyCheck p hp
  have htr := getResource_trace lib conn [] p.resourceType p.resourceName p.stackOption hv
  unfold ViewAnnotations
  simp only [hp, hm, List.length_nil, ne_eq, not_true_eq_false, if_false]
  cases hg : getResource lib conn [] p.resourceType p.resourceName p.stackOption with
  | mk tr res =>
    rw [hg] at hr htr
    simp only at hr htr
    subst hr
    simp only [htr, List.nil_append]
    split
    · rfl
    · split <;> rfl

theorem length_eq_zero_of_eq_nil (m : StringMap) (h : m = []) : m.length = 0 := by
  rw [h]; rfl

/-- C7: with the connection as an explicit trace of calls, a run of
`SetAnnotations`, `UnsetAnnotations` or `ViewAnnotations` whose argument
validation and name lookup succeed makes the lookup call, then one `curl`
request to the resource endpoint, and nothing else; a run whose argument
validation fails (`processArgs` does not succeed, or the annotation set is empty
for set and unset, or non-empty for view) makes no call at all. -/
theorem command_call_trace (lib : GoLib) (conn : CliConnection) (args : List String) :
    (∀ p g e, processArgs lib args setKeyCheck = .ok p → p.m.Metadata.Annotations ≠ [] →
        (getResource lib conn [] p.resourceType p.resourceName p.stackOption).2 = .ok (g, e) →
        (SetAnnotations lib conn args).1 =
          [lookupCall lib p.resourceType p.resourceName p.stackOption,
            .CliCommandWithoutTerminalOutput
              ["curl", resourceEndpoint e g, "-X", "PATCH", "-d", jsonMarshal lib p.m]])
      ∧ (∀ p g e, processArgs lib args unsetKeyCheck = .ok p → p.m.Metadata.Annotations ≠ [] →
        (getResource lib conn [] p.resourceType p.resourceName p.stackOption).2 = .ok (g, e) →
        (UnsetAnnotations lib conn args).1 =
          [lookupCall lib p.resourceType p.resourceName p.stackOption,
            .CliCommandWithoutTerminalOutput
              ["curl", resourceEndpoint e g, "-X", "PATCH", "-d", jsonMarshal lib p.m]])
      ∧ (∀ p g e, processArgs lib args viewKeyCheck = .ok p → p.m.Metadata.Annotations = [] →
        (getResource lib conn [] p.resourceType p.resourceName p.stackOption).2 = .ok (g, e) →
        (ViewAnnotations lib conn args).1 =
          [lookupCall lib p.resourceType p.resourceName p.stackOption,
            .CliCommandWithoutTerminalOutput ["curl", resourceEndpoint e g]])
      ∧ ((∀ p, processArgs lib args setKeyCheck = .ok p → p.m.Metadata.Annotations = []) →
        (SetAnnotations lib conn args).1 = [])
      ∧ ((∀ p, processArgs lib args unsetKeyCheck = .ok p → p.m.Metadata.Annotations = []) →
        (UnsetAnnotations lib conn args).1 = [])
      ∧ ((∀ p, processArgs lib args viewKeyCheck = .ok p → p.m.Metadata.Annotations ≠ []) →
        (ViewAnnotations lib conn args).1 = []) := by
  refine ⟨?_, ?_, ?_, ?_, ?_, ?_⟩
  · intro p g e hp hm hr
    have hlen : ¬ p.m.Metadata.Annotations.length = 0 := by
      intro h0; exact hm (List.length_eq_zero.1 h0)
    unfold SetAnnotations
    simp only [hp, hlen, if_false]
    exact patchResource_trace lib conn p g e (processArgs_ok_valid lib args _ p hp) hr
  · intro p g e hp hm hr
    have hlen : ¬ p.m.Metadata.Annotations.length = 0 := by
      intro h0; exact hm (List.length_eq_zero.1 h0)
    unfold UnsetAnnotations
    simp only [hp, hlen, if_false]
    exact patchResource_trace lib conn p g e (processArgs_ok_valid lib args _ p hp) hr
  · intro p g e hp hm hr
    exact ViewAnnotations_trace lib conn args p g e hp hm hr
  · intro h
    unfold SetAnnotations
    cases hp : processArgs lib args setKeyCheck with
    | ok p => simp [length_eq_zero_of_eq_nil _ (h p hp)]
    | error err => rfl
    | panic => rfl
  · intro h
    unfold UnsetAnnotations
    cases hp : processArgs lib args unsetKeyCheck with
    | ok p => simp [length_eq_zero_of_eq_nil _ (h p hp)]
    | error err => rfl
    | panic => rfl
  · intro h
    unfold ViewAnnotations
    cases hp : processArgs lib args viewKeyCheck with
    | ok p =>
      have hlen : p.m.Metadata.Annotations.length ≠ 0 := by
        intro h0; exact h p hp (List.length_eq_zero.1 h0)
      simp [hlen]
    | error err => rfl
    | panic => rfl

theorem command_call_trace_witness :
    (SetAnnotations asciiLib okConn ["Org", "acme", "owner=me"]).1 =
        [.GetOrg "acme",
          .CliCommandWithoutTerminalOutput
            ["curl", "/v3/organizations/guid-1", "-X", "PATCH", "-d",
              "\x7b\"metadata\":\x7b\"labels\":\x7b\x7d,\"annotations\":\x7b\"owner\":\"me\"\x7d\x7d\x7d"]]
      ∧ (ViewAnnotations asciiLib okConn ["stack", "cflinuxfs3"]).1 =
        [.CliCommandWithoutTerminalOutput ["stack", "cflinuxfs3", "--guid"],
          .CliCommandWithoutTerminalOutput ["curl", "/v3/stacks/guid-1"]]
      ∧ (UnsetAnnotations asciiLib okConn ["app", "web"]).1 = [] :=
  ⟨(command_call_trace asciiLib okConn ["Org", "acme", "owner=me"]).1
      { resourceType := "Org", resourceName := "acme", stackOption := "",
        m := { Metadata := { Labels := [],
                             Annotations := [("owner", { Value := "me", IsSet := true })] } } }
      "guid-1" "organizations" (by decide) (by decide) (by decide),
   (command_call_trace asciiLib okConn ["stack", "cflinuxfs3"]).2.2.1
      { resourceType := "stack", resourceName := "cflinuxfs3", stackOption := "",
        m := newMetadata }
      "guid-1" "stacks" (by decide) (by decide) (by decide),
   (command_call_trace asciiLib okConn ["app", "web"]).2.2.2.2.1 (by
      intro p hp
      have : p = { resourceType := "app", resourceName := "web", stackOption := "",
                   m := newMetadata } := by
        have h0 : processArgs asciiLib ["app", "web"] unsetKeyCheck =
            .ok { resourceType := "app", resourceName := "web", stackOption := "",
                  m := newMetadata } := by decide
        rw [h0] at hp
        exact (Outcome.ok.inj hp).symm
      rw [this]; rfl)⟩

/-! ## Claim on `ViewAnnotations` -/

/-- The key check of `ViewAnnotations` accepts every argument and leaves a
non-empty annotation set behind. -/
theorem checkAll_view (rest : List String) :
    ∀ m, ∃ m', checkAll viewKeyCheck rest m = .ok m'
      ∧ ((rest ≠ [] ∨ m.Metadata.Annotations ≠ []) → m'.Metadata.Annotations ≠ []) := by
  induction rest with
  | nil =>
    intro m
    exact ⟨m, rfl, fun h => h.elim (fun h => absurd rfl h) id⟩
  | cons a as ih =>
    intro m
    obtain ⟨m', h1, h2⟩ := ih
      ⟨⟨m.Metadata.Labels, mapSet m.Metadata.Annotations a (NewNullString none)⟩⟩
    refine ⟨m', ?_, fun _ => h2 (Or.inr ?_)⟩
    · simp only [checkAll, viewKeyCheck]
      exact h1
    · simp [mapSet]

/-- C8, amended: for a valid resource type and a name, when at least one
further argument is given and every further argument is non-empty and does not
start with `-`, `ViewAnnotations` returns the error `extra arguments specified`
and makes no call on the connection; with no further argument its first call is
the lookup. -/
theorem ViewAnnotations_extra_arguments (lib : GoLib) (conn : CliConnection) (t n : String)
    (rest : List String) (ht : isResourceType (lib.ToLower t) = true)
    (hrest : ∀ a ∈ rest, plainArg a = true) :
    (rest ≠ [] →
        ViewAnnotations lib conn (t :: n :: rest) = ([], .error "extra arguments specified"))
      ∧ (ViewAnnotations lib conn [t, n]).1.head? = some (lookupCall lib t n "") := by
  constructor
  · intro hne
    obtain ⟨m', hacc, hm⟩ := checkAll_view rest newMetadata
    have hlen : ¬ m'.Metadata.Annotations.length = 0 := by
      intro h0; exact hm (Or.inl hne) (List.length_eq_zero.1 h0)
    have hp : processArgs lib (t :: n :: rest) viewKeyCheck = .ok ⟨t, n, "", m'⟩ := by
      rw [processArgs_valid lib t n _ _ ht,
        rangeLoop_all_plain lib t viewKeyCheck rest "" newMetadata m' hrest hacc]
    unfold ViewAnnotations
    simp [hp, hlen]
  · have hp : processArgs lib [t, n] viewKeyCheck = .ok ⟨t, n, "", newMetadata⟩ := by
      rw [processArgs_valid lib t n _ _ ht]
      rfl
    have htr := getResource_trace lib conn [] t n "" ht
    unfold ViewAnnotations
    simp only [hp]
    cases hg : getResource lib conn [] t n "" with
    | mk tr res =>
      rw [hg] at htr
      simp only [List.nil_append] at htr
      subst htr
      cases res with
      | error err => rfl
      | panic => rfl
      | ok r =>
        obtain ⟨g, e⟩ := r
        simp only [newMetadata, List.length_nil, ne_eq, not_true_eq_false, if_false]
        split
        · rfl
        · split <;> rfl

theorem ViewAnnotations_extra_arguments_witness :
    ViewAnnotations asciiLib okConn ["app", "web", "owner", "team"] =
      ([], .error "extra arguments specified") :=
  (ViewAnnotations_extra_arguments asciiLib okConn "app" "web" ["owner", "team"] (by decide)
    (by decide)).1 (by decide)

/-- C8 as first stated fails: `extra` is a further argument which does not
start with `-` and is not the value of a stack option, yet after the option-like
argument `-z` the error `ViewAnnotations` returns is the one of the option
guard. -/
theorem ViewAnnotations_extra_argument_after_option :
    plainArg "extra" = true
      ∧ ViewAnnotations asciiLib okConn ["app", "web", "-z", "extra"] =
        ([], .error "invalid option of '-z'")
      ∧ ViewAnnotations asciiLib okConn ["app", "web", "-z", "extra"] ≠
        ([], .error "extra arguments specified") := by
  decide

/-! ## The failing inputs, through the dispatcher -/

/-- Both panics are reached from `AnnotationsPlugin.Run` with argument lists
that pass its length guards. -/
theorem Run_reaches_panics :
    Run asciiLib okConn ["set-annotation", "buildpack", "ruby", "-s", "cflinuxfs3"] =
        ([], .panicked)
      ∧ Run asciiLib okConn ["annotations", "app", "web", ""] = ([], .panicked)
      ∧ Run asciiLib okConn ["annotations", "app", "web"] =
        ([.GetApp "web", .CliCommandWithoutTerminalOutput ["curl", "/v3/apps/guid-1"]],
          .returned none) := by
  decide

end Annotations
